import Mathlib

/-!
Verification of the X11 selection-protocol clipboard engine of
`clipboard-rs` (`src/platform/x11.rs`), as a shallow embedding.

Modelling conventions:
* Bytes (`u8`) are `Nat`s; byte buffers (`Vec<u8>`, `&[u8]`) are `List Nat`.
* Protocol atoms (`x11rb::protocol::xproto::Atom`, a `u32`) are `Nat`s.
* Rust `String`s are represented by their UTF-8 byte sequences; the Rust
  guarantee that a `String` holds valid UTF-8 makes
  `String::from_utf8_lossy` the identity on such byte sequences, so at
  this level of abstraction encoding and lossy decoding are identities.
* X-server replies (property contents fetched by `get_property`) are
  environment data packaged with the events that trigger the fetches.
* A Rust panic is modelled by `Option.none`.
-/

namespace ClipboardRs

/-- A byte buffer (`Vec<u8>` / `&[u8]`). -/
abbrev Bytes := List Nat

/-- A protocol atom identifier (`u32`). -/
abbrev Atom := Nat

/-- The fixed atom set pre-resolved by the `x11rb::atom_manager!` block of
`src/platform/x11.rs` (struct `Atoms`).  Field values are whatever the X
server interned them to; the server guarantees distinct names intern to
distinct atoms (`Atoms.WF`), and theorems that rely on particular atoms
being distinct state those disequalities as explicit hypotheses. -/
structure Atoms where
  CLIPBOARD : Atom
  CLIPBOARD_MANAGER : Atom
  PROPERTY : Atom
  SAVE_TARGETS : Atom
  TARGETS : Atom
  ATOM : Atom
  INCR : Atom
  TIMESTAMP : Atom
  MULTIPLE : Atom
  UTF8_STRING : Atom
  STRING : Atom
  TEXT : Atom
  RTF : Atom
  HTML : Atom
  PNG_MIME : Atom
  FILE_LIST : Atom
  GNOME_COPY_FILES : Atom
  NAUTILUS_FILE_LIST : Atom
  deriving DecidableEq, Repr

/-- Well-formedness of an atom registry: the server interns distinct names
to pairwise distinct atoms (guaranteed by the X protocol). -/
def Atoms.WF (A : Atoms) : Prop :=
  List.Nodup [A.CLIPBOARD, A.CLIPBOARD_MANAGER, A.PROPERTY, A.SAVE_TARGETS,
    A.TARGETS, A.ATOM, A.INCR, A.TIMESTAMP, A.MULTIPLE, A.UTF8_STRING,
    A.STRING, A.TEXT, A.RTF, A.HTML, A.PNG_MIME, A.GNOME_COPY_FILES,
    A.NAUTILUS_FILE_LIST, A.FILE_LIST]

instance (A : Atoms) : Decidable A.WF := by
  unfold Atoms.WF; infer_instance

/-- A concrete well-formed atom registry, used to instantiate witnesses
and counterexamples. -/
def atoms0 : Atoms where
  CLIPBOARD := 1
  CLIPBOARD_MANAGER := 2
  PROPERTY := 3
  SAVE_TARGETS := 4
  TARGETS := 5
  ATOM := 6
  INCR := 7
  TIMESTAMP := 8
  MULTIPLE := 9
  UTF8_STRING := 10
  STRING := 11
  TEXT := 12
  RTF := 13
  HTML := 14
  PNG_MIME := 15
  FILE_LIST := 16
  GNOME_COPY_FILES := 17
  NAUTILUS_FILE_LIST := 18

/-- One entry of the stored payload (struct `ClipboardData` in
`src/platform/x11.rs`): a format atom together with the bytes offered
under that format. -/
structure ClipboardData where
  format : Atom
  data : Bytes
  deriving DecidableEq, Repr

/-- `ContentFormat` (`src/common.rs`). -/
inductive ContentFormat where
  | Text
  | Rtf
  | Html
  | Image
  | Files
  | Other (name : String)
  deriving DecidableEq, Repr

/-! ## `parse_atom_list` (`src/platform/x11.rs`)

```rust
fn parse_atom_list(data: &[u8]) -> Vec<Atom> {
    data.chunks(4)
        .map(|chunk| {
            let mut bytes = [0u8; 4];
            bytes.copy_from_slice(chunk);
            u32::from_ne_bytes(bytes)
        })
        .collect()
}
```

`chunks(4)` yields 4-byte chunks plus a possibly shorter final chunk;
`copy_from_slice` panics when the chunk length differs from 4.  The panic
is modelled by `none`.  Native endianness is modelled as little-endian
(the byte order of every platform this backend targets). -/

/-- `u32::from_ne_bytes` on four bytes, little-endian. -/
def fromNeBytes (b0 b1 b2 b3 : Nat) : Nat :=
  b0 + 256 * b1 + 65536 * b2 + 16777216 * b3

/-- `parse_atom_list`: split into 4-byte chunks and read each as a `u32`;
`none` models the `copy_from_slice` panic on a trailing short chunk. -/
def parse_atom_list : Bytes → Option (List Atom)
  | [] => some []
  | b0 :: b1 :: b2 :: b3 :: rest =>
      (parse_atom_list rest).map (fun l => fromNeBytes b0 b1 b2 b3 :: l)
  | _ => none

/-- `u32::to_ne_bytes`, little-endian: how `change_property32` serializes
each atom of a TARGETS reply onto the wire. -/
def u32ToNeBytes (a : Nat) : Bytes :=
  [a % 256, a / 256 % 256, a / 65536 % 256, a / 16777216 % 256]

/-- Wire serialization of an atom list (`change_property32` with 32-bit
format): the concatenation of the 4-byte encodings. -/
def serializeAtoms (l : List Atom) : Bytes :=
  (l.map u32ToNeBytes).flatten

/-! ## The reader state machine: `InnerContext::process_event` and
`ClipboardContext::read` (x11.rs 173-291 and 310-334) -/

/-- A property-fetch reply (`GetPropertyReply`): the declared type of the
property and the fetched byte value. -/
structure PropReply where
  type_ : Atom
  value : Bytes
  deriving DecidableEq, Repr

/-- The events `process_event` reacts to.  The property contents that the
corresponding `get_property` fetch would return when the event is
handled are environment data and are packaged with the event. -/
inductive XEvent where
  | selNotify (seq : Nat) (selection : Atom) (reply : PropReply)
  | propNotify (seq : Nat) (newValue : Bool) (reply : PropReply)
  | otherEvent (seq : Nat)
  deriving DecidableEq, Repr

/-- The two error returns of `process_event`: `"Timeout while waiting
for clipboard data"` and `"Clipboard data type mismatch"`. -/
inductive ReadErr where
  | timeoutExpired
  | typeMismatch
  deriving DecidableEq, Repr

instance {ε α : Type} [DecidableEq ε] [DecidableEq α] :
    DecidableEq (Except ε α) := fun x y =>
  match x, y with
  | .ok a, .ok b =>
      if h : a = b then .isTrue (by rw [h]) else .isFalse (by simp [h])
  | .error a, .error b =>
      if h : a = b then .isTrue (by rw [h]) else .isFalse (by simp [h])
  | .ok _, .error _ => .isFalse (by simp)
  | .error _, .ok _ => .isFalse (by simp)

/-- Outcome of `process_event`/`read`: the result, and the number of
deletions of the scratch property on the reader's own window performed
during the call (the explicit `delete_property` of x11.rs 245 and 331
and the `delete = true` fetch of each INCR chunk, x11.rs 266). -/
structure PEResult where
  result : Except ReadErr Bytes
  scratchDeletes : Nat
  deriving DecidableEq, Repr

/-- `InnerContext::process_event` (x11.rs 173-291) as a function of the
incoming event stream; an exhausted stream models the loop giving up via
the (optional) timeout — the 50 ms `park_timeout` pacing between polls
affects only wall-clock time, not the outcome.

Loop body, transcribed:
* an event whose sequence number is below the recorded one is skipped;
* `SelectionNotify`: skipped if for another selection; otherwise the
  scratch property is fetched (no delete): an `INCR`-typed reply makes
  the reader delete the scratch property and switch to incremental
  mode; a reply typed neither as the target nor as `ATOM` fails with
  the mismatch error; otherwise the value is appended and the loop
  breaks with success;
* `PropertyNotify`: ignored unless incremental mode is on and the state
  is `NEW_VALUE`; then the property is fetched with `delete = true`
  (one scratch deletion); a reply of the wrong type is skipped, a
  non-empty value is appended, an empty value ends the stream with
  success;
* anything else is ignored. -/
def processEvent (A : Atoms) (selection target property : Atom) (seqNo : Nat) :
    List XEvent → Bytes → Bool → Nat → PEResult
  | [], _, _, dels => ⟨.error .timeoutExpired, dels⟩
  | ev :: rest, buff, isIncr, dels =>
    match ev with
    | .selNotify seq sel reply =>
        if seq < seqNo then
          processEvent A selection target property seqNo rest buff isIncr dels
        else if sel ≠ selection then
          processEvent A selection target property seqNo rest buff isIncr dels
        else if reply.type_ = A.INCR then
          processEvent A selection target property seqNo rest buff true (dels + 1)
        else if reply.type_ ≠ target ∧ reply.type_ ≠ A.ATOM then
          ⟨.error .typeMismatch, dels⟩
        else ⟨.ok (buff ++ reply.value), dels⟩
    | .propNotify seq newValue reply =>
        if seq < seqNo then
          processEvent A selection target property seqNo rest buff isIncr dels
        else if isIncr then
          if newValue = false then
            processEvent A selection target property seqNo rest buff isIncr dels
          else if reply.type_ ≠ target then
            processEvent A selection target property seqNo rest buff isIncr (dels + 1)
          else if reply.value ≠ [] then
            processEvent A selection target property seqNo rest (buff ++ reply.value) isIncr
              (dels + 1)
          else ⟨.ok buff, dels + 1⟩
        else
          processEvent A selection target property seqNo rest buff isIncr dels
    | .otherEvent _ =>
        processEvent A selection target property seqNo rest buff isIncr dels

/-- `ClipboardContext::read` (x11.rs 310-334): `convert_selection` for
the CLIPBOARD selection into the scratch `PROPERTY`, then
`process_event` with no timeout; the final `delete_property` of the
scratch property (x11.rs 331) runs only after a *successful*
`process_event`, because the `?` operator propagates its errors first. -/
def readFormat (A : Atoms) (format : Atom) (events : List XEvent) (seqNo : Nat) : PEResult :=
  let r := processEvent A A.CLIPBOARD format A.PROPERTY seqNo events [] false 0
  match r.result with
  | .ok buff => ⟨.ok buff, r.scratchDeletes + 1⟩
  | .error e => ⟨.error e, r.scratchDeletes⟩

/-- The event stream of a complete INCR transfer, as the reader observes
it: the owner's selection-notify whose property is typed `INCR` (with
the size hint as value), one `NEW_VALUE` property notification per
chunk, and a final empty `NEW_VALUE` notification. -/
def incrStream (A : Atoms) (target : Atom) (seq : Nat) (hint : Bytes)
    (chunks : List Bytes) : List XEvent :=
  .selNotify seq A.CLIPBOARD ⟨A.INCR, hint⟩ ::
    (chunks.map (fun c => .propNotify seq true ⟨target, c⟩) ++
      [.propNotify seq true ⟨target, []⟩])

/-! ## The owner side: `ClipboardContext::write` and
`InnerContext::handle_selection_request` (x11.rs 336-365 and 99-171) -/

/-- The X-server requests `write` issues, in program order. -/
inductive WriteAction where
  | setSelectionOwner (win : Nat) (selection : Atom)
  | getSelectionOwner (selection : Atom)
  deriving DecidableEq, Repr

/-- `ClipboardContext::write` (x11.rs 336-365).  Under the writer half
of the `wait_write_data` lock the stored payload is cleared and then
extended with `data` — a wholesale replacement; then the call claims
ownership of CLIPBOARD for the owner window and reads the owner back.
`ownerReply` is environment: the owner the read-back reports (`none`
models a failed reply, which `unwrap_or(false)` treats as not owning).
Returns the stored payload after the call, the wire actions, and the
result. -/
def writePayload (A : Atoms) (winId : Nat) (_stored data : List ClipboardData)
    (ownerReply : Option Nat) :
    List ClipboardData × List WriteAction × Except String Unit :=
  let cleared : List ClipboardData := []
  let newStored := cleared ++ data
  let acts := [WriteAction.setSelectionOwner winId A.CLIPBOARD,
               WriteAction.getSelectionOwner A.CLIPBOARD]
  if ownerReply = some winId then (newStored, acts, .ok ())
  else (newStored, acts, .error "Failed to take ownership of the clipboard")

/-! ## Typed getters (x11.rs 474-533) -/

/-- Rust's `str::lines` on a UTF-8 byte sequence: split at `\n` (10),
the final line ending optional, and a `\r` (13) immediately preceding a
split point stripped.  (`String::from_utf8_lossy` of a valid buffer is
the identity at this byte-level representation of strings.) -/
def splitOnNl : Bytes → List Bytes
  | [] => [[]]
  | b :: rest =>
      if b = 10 then [] :: splitOnNl rest
      else
        match splitOnNl rest with
        | [] => [[b]]
        | l :: ls => (b :: l) :: ls

/-- Strip one trailing carriage return (for a line that ended in
`\r\n`). -/
def stripCr (l : Bytes) : Bytes :=
  match l.getLast? with
  | some 13 => l.dropLast
  | _ => l

/-- `str::lines`: all segments before a split point have their optional
trailing `\r` removed; a final empty segment (input ended with a line
ending) is dropped; a final non-empty segment is kept verbatim. -/
def strLines (s : Bytes) : List Bytes :=
  let segs := splitOnNl s
  let init := (segs.dropLast).map stripCr
  match segs.getLast? with
  | some [] => init
  | some l => init ++ [l]
  | none => init

/-- The `"file://"` prefix constant (`FILE_PATH_PREFIX`), as UTF-8
bytes. -/
def fileUriScheme : Bytes := [102, 105, 108, 101, 58, 47, 47]

/-- `Clipboard::get_text` for X11 (x11.rs 474-481), as a function of the
underlying `read(UTF8_STRING)` outcome: `map_or_else` sends every read
error to `Ok("")` and decodes a successful buffer with
`String::from_utf8_lossy` (the identity here, strings being represented
by their UTF-8 bytes). -/
def get_text (readResult : Except ReadErr Bytes) : Except ReadErr Bytes :=
  match readResult with
  | .error _ => .ok []
  | .ok data => .ok data

/-- `Clipboard::get_rich_text` (x11.rs 483-490): same shape as
`get_text` over the `read(RTF)` outcome. -/
def get_rich_text (readResult : Except ReadErr Bytes) : Except ReadErr Bytes :=
  match readResult with
  | .error _ => .ok []
  | .ok data => .ok data

/-- `Clipboard::get_html` (x11.rs 492-499): same shape as `get_text`
over the `read(HTML)` outcome. -/
def get_html (readResult : Except ReadErr Bytes) : Except ReadErr Bytes :=
  match readResult with
  | .error _ => .ok []
  | .ok data => .ok data

/-- `Clipboard::get_files` (x11.rs 516-533) over the `read(FILE_LIST)`
outcome: errors become `Ok(vec![])`; otherwise the lines of the decoded
buffer that start with `"file://"` are kept, in order. -/
def get_files (readResult : Except ReadErr Bytes) : Except ReadErr (List Bytes) :=
  match readResult with
  | .error _ => .ok []
  | .ok data => .ok ((strLines data).filter (fun l => fileUriScheme.isPrefixOf l))

/-- The observable effect of `InnerContext::handle_selection_request`
(x11.rs 99-171) on one selection request: a TARGETS request is answered
with a 32-bit list `{TARGETS, SAVE_TARGETS} ++ payload formats` typed
`ATOM`; any other target is answered with the matching payload entry's
bytes typed as the target, or refused (the notify's `property` field set
to `NONE`) when no entry matches. -/
inductive SelReply where
  | targetsList (ats : List Atom)
  | dataBytes (t : Atom) (value : Bytes)
  | refused
  deriving DecidableEq, Repr

/-- `InnerContext::handle_selection_request`, reduced to the reply it
produces for a request with the given target. -/
def handle_selection_request (A : Atoms) (payload : List ClipboardData)
    (target : Atom) : SelReply :=
  if target = A.TARGETS then
    .targetsList (A.TARGETS :: A.SAVE_TARGETS :: payload.map (fun d => d.format))
  else
    match payload.find? (fun d => d.format == target) with
    | some d => .dataBytes target d.data
    | none => .refused

/-- The selection-notify the reader observes when this context's *own*
responder serves its request (writer and reader connections of one
`ClipboardContext`): on success, the scratch property holds exactly the
bytes the responder wrote, typed as the responder declared; on refusal
(`property = NONE`) the subsequent fetch finds no data, modelled as a
`NONE`-typed (0) empty reply.  (A real server answers the fetch on
property atom 0 with a protocol error instead; either way the read
fails, see C3.) -/
def selfServeEvents (A : Atoms) (payload : List ClipboardData) (target : Atom)
    (seq : Nat) : List XEvent :=
  match handle_selection_request A payload target with
  | .targetsList ats => [.selNotify seq A.CLIPBOARD ⟨A.ATOM, serializeAtoms ats⟩]
  | .dataBytes t v => [.selNotify seq A.CLIPBOARD ⟨t, v⟩]
  | .refused => [.selNotify seq A.CLIPBOARD ⟨0, []⟩]

/-- `ClipboardContext::set_text` (x11.rs 579-588): store the string's
UTF-8 bytes under `UTF8_STRING` and run `write`. -/
def set_text (A : Atoms) (winId : Nat) (stored : List ClipboardData)
    (textBytes : Bytes) (ownerReply : Option Nat) :
    List ClipboardData × List WriteAction × Except String Unit :=
  writePayload A winId stored [⟨A.UTF8_STRING, textBytes⟩] ownerReply

/-- `Clipboard::get_buffer` (x11.rs 466-472) after the format name has
been resolved by `get_atom` (which, for a well-formed name, always
returns an atom): `read` the atom and pass its result — including its
errors — through to the caller unchanged. -/
def get_buffer (A : Atoms) (formatAtom : Atom) (events : List XEvent)
    (seqNo : Nat) : Except ReadErr Bytes :=
  (readFormat A formatAtom events seqNo).result

/-! ## Format enumeration: `available_formats` and `has`
(x11.rs 421-460) -/

/-- `ignore_formats` assembled by `InnerContext::new` (x11.rs 84-89):
the protocol pseudo-targets filtered out of `available_formats`. -/
def ignore_formats (A : Atoms) : List Atom :=
  [A.TIMESTAMP, A.MULTIPLE, A.TARGETS, A.SAVE_TARGETS]

/-- `Clipboard::available_formats` (x11.rs 421-437) as a function of the
TARGETS read outcome and of the server's atom-name map `nameOf`
(`get_atom_name`, folded with the code's `unwrap_or("Unknown")`).
The outer `none` models the `parse_atom_list` panic on a reply whose
length is not a multiple of 4. -/
def available_formats (A : Atoms) (nameOf : Atom → Option String)
    (readResult : Except ReadErr Bytes) : Option (Except ReadErr (List String)) :=
  match readResult with
  | .error e => some (.error e)
  | .ok data =>
      (parse_atom_list data).map fun atomList =>
        .ok ((atomList.filter (fun a => !((ignore_formats A).contains a))).map
          (fun a => (nameOf a).getD "Unknown"))

/-- `Clipboard::has` (x11.rs 439-460): re-read TARGETS, parse the atom
list, and test membership of the format's atom; `intern` is the
server's `intern_atom` map used for `ContentFormat::Other` (total for
well-formed names).  `none` models the `parse_atom_list` panic; a
failed TARGETS read yields `false`. -/
def hasFormat (A : Atoms) (intern : String → Atom)
    (readResult : Except ReadErr Bytes) (format : ContentFormat) : Option Bool :=
  match readResult with
  | .error _ => some false
  | .ok data =>
      (parse_atom_list data).map fun formats =>
        match format with
        | .Text => formats.contains A.UTF8_STRING
        | .Rtf => formats.contains A.RTF
        | .Html => formats.contains A.HTML
        | .Image => formats.contains A.PNG_MIME
        | .Files => formats.contains A.FILE_LIST
        | .Other name => formats.contains (intern name)

/-- The atom `has` tests for a given `ContentFormat` (the match arms of
x11.rs 444-456). -/
def formatAtom (A : Atoms) (intern : String → Atom) : ContentFormat → Atom
  | .Text => A.UTF8_STRING
  | .Rtf => A.RTF
  | .Html => A.HTML
  | .Image => A.PNG_MIME
  | .Files => A.FILE_LIST
  | .Other name => intern name

/-- A concrete server atom-name map for `atoms0`, covering the atoms the
counterexample touches. -/
def atoms0Name (a : Atom) : Option String :=
  if a = 5 then some "TARGETS"
  else if a = 4 then some "SAVE_TARGETS"
  else if a = 10 then some "UTF8_STRING"
  else none

/-- A concrete server intern map consistent with `atoms0Name`. -/
def atoms0Intern (s : String) : Atom :=
  if s = "TARGETS" then 5
  else if s = "SAVE_TARGETS" then 4
  else if s = "UTF8_STRING" then 10
  else 100

/-! ## Atom resolution: `XServerContext::get_atom` (x11.rs 802-805) -/

/-- The server-side atom table: interned (name, atom) pairs plus the
next fresh atom id.  Idempotence of interning is the server's
guarantee: `InternAtom(only_if_exists = false)` returns the existing
atom for a known name, otherwise interns the name fresh. -/
structure AtomServer where
  table : List (String × Atom)
  nextId : Atom
  deriving DecidableEq, Repr

/-- The server's reply to one `InternAtom` request. -/
def AtomServer.intern (srv : AtomServer) (name : String) : Atom × AtomServer :=
  match srv.table.find? (fun p => p.1 == name) with
  | some p => (p.2, srv)
  | none => (srv.nextId, ⟨srv.table ++ [(name, srv.nextId)], srv.nextId + 1⟩)

/-- `XServerContext::get_atom` (x11.rs 802-805): the body
unconditionally sends one `InternAtom` request and returns the replied
atom.  The second component lists the wire requests this call issues —
always exactly one; there is no client-side cache in `get_atom` (the
`atom_manager!` set is pre-resolved once at construction, but custom
names take this path on every call). -/
def get_atom (srv : AtomServer) (format : String) : (Atom × AtomServer) × List String :=
  (srv.intern format, [format])

/-! ## The change watcher: `ClipboardWatcherContext::start_watch`
(x11.rs 698-745) -/

/-- One iteration's inputs to the watch loop: whether the 500 ms
`recv_timeout` on the shutdown channel yields the shutdown message this
iteration (`WatcherShutdown::stop`/`Drop` sends it, making `stopReady`
true at the first `recv_timeout` that can observe it), and what
`poll_for_event` returns (`some true` = an `XfixesSelectionNotify`,
`some false` = another event, `none` = nothing pending). -/
structure WatchStep where
  stopReady : Bool
  event : Option Bool
  deriving DecidableEq, Repr

/-- The `recv_timeout` bound of each loop iteration, in milliseconds
(`Duration::from_millis(500)`, x11.rs 724): the watcher blocks on the
shutdown channel for at most this long per iteration. -/
def pollIntervalMillis : Nat := 500

/-- The `start_watch` loop (x11.rs 721-745), discretized over its
iterations.  Each iteration first waits (≤ `pollIntervalMillis`) on the
shutdown channel and breaks immediately if the message is there; only
otherwise does it poll one event, running every handler on an
`XfixesSelectionNotify`.  Returns `some n` — `n` the number of
handler-invocation rounds — once the loop breaks, `none` if it is still
running after the given steps. -/
def startWatchLoop : List WatchStep → Nat → Option Nat
  | [], _ => none
  | s :: rest, rounds =>
      if s.stopReady then some rounds
      else
        match s.event with
        | some true => startWatchLoop rest (rounds + 1)
        | _ => startWatchLoop rest rounds

/-- The handler rounds a sequence of steps produces: one per
`XfixesSelectionNotify`. -/
def handlerRounds (steps : List WatchStep) : Nat :=
  (steps.filter (fun s => s.event == some true)).length

/-! ## Theorems -/

theorem fromNeBytes_u32ToNeBytes (a : Nat) :
    fromNeBytes (a % 256) (a / 256 % 256) (a / 65536 % 256) (a / 16777216 % 256) =
      a % 4294967296 := by
  unfold fromNeBytes
  omega

/-- Parsing inverts serialization, chunk by chunk; each atom comes back
reduced modulo 2^32 (`Atom` is a `u32` on the wire). -/
theorem parse_serializeAtoms (l : List Atom) :
    parse_atom_list (serializeAtoms l) = some (l.map (fun a => a % 4294967296)) := by
  induction l with
  | nil => rfl
  | cons a rest ih =>
      show parse_atom_list (u32ToNeBytes a ++ serializeAtoms rest) = _
      simp [u32ToNeBytes, parse_atom_list, ih, fromNeBytes_u32ToNeBytes]

/-- `(a0 :: a1 :: a2 :: a3 :: t).getD (n + 4) = t.getD n`: stepping a
default-valued lookup over one 4-byte chunk. -/
theorem getD_cons_four (a0 a1 a2 a3 : Nat) (t : List Nat) (n : Nat) :
    (a0 :: a1 :: a2 :: a3 :: t).getD (n + 4) 0 = t.getD n 0 := rfl

/-- On input of length divisible by 4, `parse_atom_list` succeeds and
returns one atom per consecutive 4-byte chunk, in order. -/
theorem parse_atom_list_mod4 (data : Bytes) :
    data.length % 4 = 0 →
    ∃ l, parse_atom_list data = some l ∧ l.length = data.length / 4 ∧
      ∀ i, i < data.length / 4 →
        l.getD i 0 = fromNeBytes (data.getD (4 * i) 0) (data.getD (4 * i + 1) 0)
          (data.getD (4 * i + 2) 0) (data.getD (4 * i + 3) 0) := by
  induction data using parse_atom_list.induct with
  | case1 => exact fun _ => ⟨[], rfl, by simp, by simp⟩
  | case2 b0 b1 b2 b3 rest ih =>
      intro h
      have hr : rest.length % 4 = 0 := by simp at h; omega
      obtain ⟨l, hl, hlen, hidx⟩ := ih hr
      refine ⟨fromNeBytes b0 b1 b2 b3 :: l, ?_, ?_, ?_⟩
      · simp [parse_atom_list, hl]
      · simp [hlen]; omega
      · intro i hi
        match i with
        | 0 => simp
        | Nat.succ j =>
            have hj : j < rest.length / 4 := by
              simp at hi ⊢; omega
            have e0 : 4 * (j + 1) = 4 * j + 4 := by omega
            have e1 : 4 * j + 4 + 1 = (4 * j + 1) + 4 := by omega
            have e2 : 4 * j + 4 + 2 = (4 * j + 2) + 4 := by omega
            have e3 : 4 * j + 4 + 3 = (4 * j + 3) + 4 := by omega
            rw [List.getD_cons_succ, hidx j hj, e0, e1, e2, e3,
              getD_cons_four, getD_cons_four, getD_cons_four, getD_cons_four]
  | case3 data h1 h2 =>
      intro h
      exfalso
      match data, h1, h2 with
      | [], h1, _ => exact h1 rfl
      | [_], _, _ => simp at h
      | [_, _], _, _ => simp at h
      | [_, _, _], _, _ => simp at h
      | _ :: _ :: _ :: _ :: _, _, h2 => exact h2 _ _ _ _ _ rfl

/-- On input of length not divisible by 4, the final short chunk makes
`copy_from_slice` panic (modelled by `none`). -/
theorem parse_atom_list_short_chunk_panics (data : Bytes) (h : data.length % 4 ≠ 0) :
    parse_atom_list data = none := by
  induction data using parse_atom_list.induct with
  | case1 => simp at h
  | case2 b0 b1 b2 b3 rest ih =>
      have hr : rest.length % 4 ≠ 0 := by simp at h ⊢; omega
      simp [parse_atom_list, ih hr]
  | case3 data h1 h2 =>
      match data, h1, h2 with
      | [], h1, _ => exact absurd rfl h1
      | [_], _, _ => rfl
      | [_, _], _, _ => rfl
      | [_, _, _], _, _ => rfl
      | _ :: _ :: _ :: _ :: _, _, h2 => exact absurd rfl (h2 _ _ _ _ _)

/-- **C9.** `parse_atom_list` is total exactly under the precondition
that the input length is a multiple of 4: under it, the result has
`len / 4` atoms, the `i`-th being the native-endian 32-bit value of the
`i`-th consecutive 4-byte chunk; otherwise the copy of the final short
chunk into the fixed 4-byte array panics (`none`), a panic site
reachable from `available_formats`/`has` (which feed it the raw TARGETS
reply). -/
theorem parse_atom_list_total_iff_mod4 (A : Atoms) (nameOf : Atom → Option String)
    (intern : String → Atom) (F : ContentFormat) (data : Bytes) :
    (data.length % 4 = 0 →
      ∃ l, parse_atom_list data = some l ∧ l.length = data.length / 4 ∧
        ∀ i, i < data.length / 4 →
          l.getD i 0 = fromNeBytes (data.getD (4 * i) 0) (data.getD (4 * i + 1) 0)
            (data.getD (4 * i + 2) 0) (data.getD (4 * i + 3) 0)) ∧
    (data.length % 4 ≠ 0 → parse_atom_list data = none ∧
      available_formats A nameOf (.ok data) = none ∧
      hasFormat A intern (.ok data) F = none) := by
  refine ⟨parse_atom_list_mod4 data, fun h => ?_⟩
  have hp := parse_atom_list_short_chunk_panics data h
  refine ⟨hp, by simp [available_formats, hp], ?_⟩
  cases F <;> simp [hasFormat, hp]

/-- Witness for **C9** on concrete inputs: an 8-byte reply parses to two
atoms, a 3-byte reply panics all the way up through
`available_formats`/`has`. -/
theorem parse_atom_list_total_iff_mod4_witness :
    (∃ l, parse_atom_list [1, 0, 0, 0, 2, 1, 0, 0] = some l ∧
      l.length = ([1, 0, 0, 0, 2, 1, 0, 0] : Bytes).length / 4 ∧
      ∀ i, i < ([1, 0, 0, 0, 2, 1, 0, 0] : Bytes).length / 4 →
        l.getD i 0 = fromNeBytes (([1, 0, 0, 0, 2, 1, 0, 0] : Bytes).getD (4 * i) 0)
          (([1, 0, 0, 0, 2, 1, 0, 0] : Bytes).getD (4 * i + 1) 0)
          (([1, 0, 0, 0, 2, 1, 0, 0] : Bytes).getD (4 * i + 2) 0)
          (([1, 0, 0, 0, 2, 1, 0, 0] : Bytes).getD (4 * i + 3) 0)) ∧
    (parse_atom_list [1, 0, 0] = none ∧
      available_formats atoms0 atoms0Name (.ok [1, 0, 0]) = none ∧
      hasFormat atoms0 atoms0Intern (.ok [1, 0, 0]) .Text = none) :=
  ⟨(parse_atom_list_total_iff_mod4 atoms0 atoms0Name atoms0Intern .Text
      [1, 0, 0, 0, 2, 1, 0, 0]).1 (by decide),
   (parse_atom_list_total_iff_mod4 atoms0 atoms0Name atoms0Intern .Text
      [1, 0, 0]).2 (by decide)⟩

/-- In incremental mode, a run of non-empty same-typed chunk
notifications followed by an empty one appends exactly the chunks, in
order, and deletes the scratch property once per fetch. -/
theorem processEvent_incr_chunks (A : Atoms) (sel target property : Atom) (seqNo seq : Nat)
    (hseq : seqNo ≤ seq) (chunks : List Bytes) (hne : ∀ c ∈ chunks, c ≠ [])
    (buff : Bytes) (dels : Nat) :
    processEvent A sel target property seqNo
      (chunks.map (fun c => .propNotify seq true ⟨target, c⟩) ++
        [.propNotify seq true ⟨target, []⟩])
      buff true dels
      = ⟨.ok (buff ++ chunks.flatten), dels + chunks.length + 1⟩ := by
  induction chunks generalizing buff dels with
  | nil => simp [processEvent, Nat.not_lt.mpr hseq]
  | cons c cs ih =>
      have hc : c ≠ [] := hne c (by simp)
      have ih2 := ih (fun x hx => hne x (by simp [hx])) (buff ++ c) (dels + 1)
      simp [processEvent, Nat.not_lt.mpr hseq, hc, ih2]
      omega

/-- **C1.** A complete incremental transfer assembles exactly the
writer's bytes: on a selection-notify typed `INCR` the reader deletes
the scratch property and enters incremental mode; each subsequent
`NEW_VALUE` notification typed as the target appends its non-empty
fetched bytes in arrival order; the first empty value terminates with
success.  The assembled buffer is the concatenation of the chunks and
its length is the sum of the chunk lengths (the writer's byte length);
the scratch property is deleted once for the INCR marker and once per
fetch. -/
theorem incr_transfer_assembles_chunks (A : Atoms) (target property : Atom)
    (seqNo seq : Nat) (hseq : seqNo ≤ seq) (hint : Bytes) (chunks : List Bytes)
    (hne : ∀ c ∈ chunks, c ≠ []) :
    processEvent A A.CLIPBOARD target property seqNo
        (incrStream A target seq hint chunks) [] false 0
      = ⟨.ok chunks.flatten, chunks.length + 2⟩ ∧
    chunks.flatten.length = (chunks.map List.length).sum := by
  constructor
  · have h := processEvent_incr_chunks A A.CLIPBOARD target property seqNo seq hseq chunks hne [] 1
    simp only [incrStream, processEvent, Nat.not_lt.mpr hseq, if_false] at h ⊢
    simp [Nat.not_lt.mpr hseq, h]
    omega
  · simp [List.length_flatten]

/-- Witness for **C1**: a three-chunk transfer with concrete bytes. -/
theorem incr_transfer_assembles_chunks_witness :
    processEvent atoms0 atoms0.CLIPBOARD atoms0.UTF8_STRING atoms0.PROPERTY 5
        (incrStream atoms0 atoms0.UTF8_STRING 7 [16, 0, 0, 0] [[1, 2], [3], [4, 5, 6]])
        [] false 0
      = ⟨.ok [1, 2, 3, 4, 5, 6], 5⟩ ∧
    ([1, 2, 3, 4, 5, 6] : Bytes).length = 6 := by
  have h := incr_transfer_assembles_chunks atoms0 atoms0.UTF8_STRING atoms0.PROPERTY 5 7
    (by decide) [16, 0, 0, 0] [[1, 2], [3], [4, 5, 6]] (by decide)
  exact ⟨by simpa using h.1, by decide⟩

/-- **C7 counterexample.** A read that terminates in `TYPE_MISMATCH`
returns without any deletion of the scratch property: the first
selection-notify carries a reply typed `HTML` while `UTF8_STRING` was
requested, `process_event` returns the mismatch error, and the `?` in
`read` propagates it before the final `delete_property` (x11.rs 331)
can run — `scratchDeletes = 0`, refuting deletion on every terminal
outcome.  (An empty event stream shows the same for `TIMED_OUT`.) -/
theorem read_mismatch_skips_delete_counterexample :
    readFormat atoms0 atoms0.UTF8_STRING
        [.selNotify 7 atoms0.CLIPBOARD ⟨atoms0.HTML, [1]⟩] 5
      = ⟨.error .typeMismatch, 0⟩ ∧
    readFormat atoms0 atoms0.UTF8_STRING [] 5
      = ⟨.error .timeoutExpired, 0⟩ := by decide

/-- **C7 amended.** The scratch property is deleted before `read`
returns on *successful* completion (`COMPLETE`); on the error outcomes
(`TIMED_OUT`, `TYPE_MISMATCH`) the early return skips the final
deletion, so a deletion is only guaranteed when the state machine
succeeds. -/
theorem read_deletes_scratch_on_success (A : Atoms) (format : Atom)
    (events : List XEvent) (seqNo : Nat) (buff : Bytes)
    (h : (readFormat A format events seqNo).result = .ok buff) :
    1 ≤ (readFormat A format events seqNo).scratchDeletes := by
  unfold readFormat at *
  cases hr : (processEvent A A.CLIPBOARD format A.PROPERTY seqNo events [] false 0).result with
  | ok b => simp [hr]
  | error e => simp [hr] at h

/-- Witness for **C7 amended**: a successful direct transfer deletes the
scratch property. -/
theorem read_deletes_scratch_on_success_witness :
    (readFormat atoms0 atoms0.UTF8_STRING
        [.selNotify 7 atoms0.CLIPBOARD ⟨atoms0.UTF8_STRING, [9]⟩] 5).result = .ok [9] ∧
    1 ≤ (readFormat atoms0 atoms0.UTF8_STRING
        [.selNotify 7 atoms0.CLIPBOARD ⟨atoms0.UTF8_STRING, [9]⟩] 5).scratchDeletes :=
  ⟨by decide,
   read_deletes_scratch_on_success atoms0 atoms0.UTF8_STRING
     [.selNotify 7 atoms0.CLIPBOARD ⟨atoms0.UTF8_STRING, [9]⟩] 5 [9] (by decide)⟩

/-- **C4.** `write(P)` replaces the stored payload wholesale with `P`
(previous entries cleared first), then sets the selection owner of
CLIPBOARD to the owner window, then reads the owner back; it returns
`Ok` iff the read-back owner is the owner window, and on failure the
payload is still the replaced one. -/
theorem write_replaces_claims_verifies (A : Atoms) (winId : Nat)
    (stored data : List ClipboardData) (ownerReply : Option Nat) :
    (writePayload A winId stored data ownerReply).1 = data ∧
    (writePayload A winId stored data ownerReply).2.1 =
      [.setSelectionOwner winId A.CLIPBOARD, .getSelectionOwner A.CLIPBOARD] ∧
    ((∃ u, (writePayload A winId stored data ownerReply).2.2 = .ok u) ↔
      ownerReply = some winId) := by
  by_cases h : ownerReply = some winId <;> simp [writePayload, h]

/-- **C10.** `get_text`, `get_rich_text`, `get_html` and `get_files`
never return an error: every failure of the underlying read is mapped to
`Ok` with the empty string (resp. empty list), and a failed read is
indistinguishable from a read of genuinely empty content. -/
theorem typed_getters_never_error (r : Except ReadErr Bytes) :
    (∃ s, get_text r = .ok s) ∧ (∃ s, get_rich_text r = .ok s) ∧
    (∃ s, get_html r = .ok s) ∧ (∃ fs, get_files r = .ok fs) ∧
    (∀ e : ReadErr,
      get_text (.error e) = get_text (.ok []) ∧
      get_rich_text (.error e) = get_rich_text (.ok []) ∧
      get_html (.error e) = get_html (.ok []) ∧
      get_files (.error e) = get_files (.ok [])) := by
  refine ⟨?_, ?_, ?_, ?_, fun e => by simp [get_text, get_rich_text, get_html, get_files, strLines, splitOnNl]⟩ <;>
    cases r <;> simp [get_text, get_rich_text, get_html, get_files]

/-- **C2.** For every string `T` (represented by its UTF-8 bytes),
`set_text T` followed by `get_text` served by the context's own
responder returns exactly `T`: `set_text` stores `T`'s bytes under
`UTF8_STRING`, the responder answers a `UTF8_STRING` request with
exactly those bytes, and `get_text` decodes them back unchanged.  The
two distinctness side conditions hold for any real atom registry
(distinct names intern to distinct atoms). -/
theorem set_text_get_text_roundtrip (A : Atoms) (winId : Nat)
    (stored : List ClipboardData) (T : Bytes) (seqNo seq : Nat) (hseq : seqNo ≤ seq)
    (hT : A.UTF8_STRING ≠ A.TARGETS) (hI : A.UTF8_STRING ≠ A.INCR) :
    get_text (get_buffer A A.UTF8_STRING
        (selfServeEvents A (set_text A winId stored T (some winId)).1 A.UTF8_STRING seq)
        seqNo)
      = .ok T := by
  have hpay : (set_text A winId stored T (some winId)).1 = [⟨A.UTF8_STRING, T⟩] := by
    simp [set_text, writePayload]
  rw [hpay]
  simp only [selfServeEvents, handle_selection_request, hT, if_false, List.find?,
    beq_self_eq_true, if_neg hT]
  simp [get_buffer, readFormat, processEvent, Nat.not_lt.mpr hseq, hI, get_text]

/-- Witness for **C2** with a concrete string (`"hi"`, bytes 104 105). -/
theorem set_text_get_text_roundtrip_witness :
    get_text (get_buffer atoms0 atoms0.UTF8_STRING
        (selfServeEvents atoms0 (set_text atoms0 42 [] [104, 105] (some 42)).1
          atoms0.UTF8_STRING 7) 5)
      = .ok [104, 105] :=
  set_text_get_text_roundtrip atoms0 42 [] [104, 105] 5 7 (by decide)
    (by decide) (by decide)

/-- **C3 counterexample.** A `get_buffer` for a format the owner does
not offer returns an *error*, not an absent/empty success: the owner
(here: this context's own responder, holding only `UTF8_STRING`)
refuses the request with `property = NONE`, the reader's fetch finds no
data, and the `NONE` type (0) fails the x11.rs 248 type check, so
`get_buffer` propagates `Err("Clipboard data type mismatch")`.  The
codebase has no `NoData` value at all — `get_buffer`'s only outcomes
are `Ok(bytes)` and `Err`. -/
theorem get_buffer_missing_format_counterexample :
    get_buffer atoms0 atoms0.PNG_MIME
        (selfServeEvents atoms0 [⟨atoms0.UTF8_STRING, [97]⟩] atoms0.PNG_MIME 7) 5
      = .error .typeMismatch := by decide

/-- **C3 amended.** For every format `F` not offered by the owner, the
(self-served) `get_buffer F` fails with the type-mismatch error — a
missing format surfaces as an `Err`, never as an absent/empty `Ok`;
only the typed getters (`get_text` …) map the failure to an empty
result.  Side conditions: `F` is a real pre-existing atom distinct from
`TARGETS`, and atoms are nonzero (the X protocol reserves 0 for
`None`). -/
theorem get_buffer_missing_format_is_error (A : Atoms) (payload : List ClipboardData)
    (F : Atom) (seqNo seq : Nat) (hseq : seqNo ≤ seq)
    (hF : ∀ d ∈ payload, d.format ≠ F) (hT : F ≠ A.TARGETS)
    (hI : A.INCR ≠ 0) (hFa : F ≠ 0) (hAt : A.ATOM ≠ 0) :
    get_buffer A F (selfServeEvents A payload F seq) seqNo
      = .error .typeMismatch := by
  have hfind : payload.find? (fun d => d.format == F) = none := by
    rw [List.find?_eq_none]
    intro d hd
    simp [hF d hd]
  simp only [selfServeEvents, handle_selection_request, if_neg hT, hfind]
  simp [get_buffer, readFormat, processEvent, Nat.not_lt.mpr hseq,
    Ne.symm hI, Ne.symm hFa, Ne.symm hAt]

/-- Witness for **C3 amended** at a concrete missing format. -/
theorem get_buffer_missing_format_is_error_witness :
    get_buffer atoms0 atoms0.RTF
        (selfServeEvents atoms0 [⟨atoms0.UTF8_STRING, [97]⟩] atoms0.RTF 7) 5
      = .error .typeMismatch :=
  get_buffer_missing_format_is_error atoms0 [⟨atoms0.UTF8_STRING, [97]⟩]
    atoms0.RTF 5 7 (by decide) (by decide) (by decide) (by decide) (by decide)
    (by decide)

theorem hasFormat_eq_contains (A : Atoms) (intern : String → Atom) (data : Bytes)
    (atomList : List Atom) (F : ContentFormat)
    (hp : parse_atom_list data = some atomList) :
    hasFormat A intern (.ok data) F = some (atomList.contains (formatAtom A intern F)) := by
  cases F <;> simp [hasFormat, formatAtom, hp]

/-- **C5 counterexample.** The iff fails on the protocol pseudo-formats:
with this context's own responder owning the selection (payload: one
`UTF8_STRING` entry), the TARGETS reply lists `TARGETS`, `SAVE_TARGETS`
and `UTF8_STRING`; `has(Other("TARGETS"))` is `true` (the atom is in
the reply), but `available_formats()` filters `TARGETS` out via the
ignore list, so the name `"TARGETS"` does not appear in it. -/
theorem has_iff_available_counterexample :
    hasFormat atoms0 atoms0Intern
        (get_buffer atoms0 atoms0.TARGETS
          (selfServeEvents atoms0 [⟨atoms0.UTF8_STRING, [104]⟩] atoms0.TARGETS 7) 5)
        (.Other "TARGETS") = some true ∧
    available_formats atoms0 atoms0Name
        (get_buffer atoms0 atoms0.TARGETS
          (selfServeEvents atoms0 [⟨atoms0.UTF8_STRING, [104]⟩] atoms0.TARGETS 7) 5)
      = some (.ok ["UTF8_STRING"]) ∧
    ¬ ("TARGETS" ∈ ["UTF8_STRING"]) := by decide

/-- **C5 amended.** For formats that are not protocol pseudo-formats —
the resolved atom is outside the ignore list `{TIMESTAMP, MULTIPLE,
TARGETS, SAVE_TARGETS}` — and a server name map that is injective on
the offered atoms, `has(F)` is `true` iff `F`'s name appears in
`available_formats()` (both computed from the same TARGETS reply). -/
theorem has_iff_available_for_real_formats (A : Atoms) (nameOf : Atom → Option String)
    (intern : String → Atom) (atomList : List Atom) (F : ContentFormat)
    (hsz : ∀ a ∈ atomList, a < 4294967296)
    (hig : formatAtom A intern F ∉ ignore_formats A)
    (hinj : ∀ a ∈ atomList,
      (nameOf a).getD "Unknown" = (nameOf (formatAtom A intern F)).getD "Unknown" →
        a = formatAtom A intern F) :
    hasFormat A intern (.ok (serializeAtoms atomList)) F = some true ↔
      ∃ names, available_formats A nameOf (.ok (serializeAtoms atomList))
          = some (.ok names) ∧
        (nameOf (formatAtom A intern F)).getD "Unknown" ∈ names := by
  have hmap : atomList.map (fun a => a % 4294967296) = atomList := by
    conv_rhs => rw [← List.map_id atomList]
    exact List.map_congr_left (fun a ha => Nat.mod_eq_of_lt (hsz a ha))
  have hparse : parse_atom_list (serializeAtoms atomList) = some atomList := by
    rw [parse_serializeAtoms, hmap]
  rw [hasFormat_eq_contains A intern _ atomList F hparse]
  simp only [available_formats, hparse, Option.map_some', Option.some.injEq,
    Except.ok.injEq]
  constructor
  · intro h
    have hmem : formatAtom A intern F ∈ atomList := by
      simpa using h
    refine ⟨_, rfl, ?_⟩
    refine List.mem_map.mpr ⟨formatAtom A intern F, ?_, rfl⟩
    refine List.mem_filter.mpr ⟨hmem, ?_⟩
    simpa using hig
  · rintro ⟨names, hnames, hmem⟩
    rw [← hnames] at hmem
    obtain ⟨a, haf, hname⟩ := List.mem_map.mp hmem
    have hal : a ∈ atomList := (List.mem_filter.mp haf).1
    have : a = formatAtom A intern F := hinj a hal hname
    subst this
    simpa using hal

/-- Witness for **C5 amended**: `Text` against a reply offering
`UTF8_STRING` and `HTML`. -/
theorem has_iff_available_for_real_formats_witness :
    hasFormat atoms0 atoms0Intern (.ok (serializeAtoms [10, 14])) .Text = some true ↔
      ∃ names, available_formats atoms0 atoms0Name (.ok (serializeAtoms [10, 14]))
          = some (.ok names) ∧
        (atoms0Name (formatAtom atoms0 atoms0Intern .Text)).getD "Unknown" ∈ names :=
  has_iff_available_for_real_formats atoms0 atoms0Name atoms0Intern [10, 14] .Text
    (by decide) (by decide) (by decide)

/-- **C6 counterexample.** Resolving the same name twice on the same
context issues a second `InternAtom` round-trip: the wire-request list
of the second `get_atom` call is `["text/custom"]`, not the empty list
a cache hit would produce — the result is *not* answered from a cache. -/
theorem get_atom_second_call_hits_server_counterexample :
    (get_atom (get_atom ⟨[], 1⟩ "text/custom").1.2 "text/custom").2 = ["text/custom"] ∧
    ¬ ((get_atom (get_atom ⟨[], 1⟩ "text/custom").1.2 "text/custom").2
        = ([] : List String)) := by decide

/-- **C6 amended.** Resolution is idempotent — two `get_atom` calls for
the same name on the same context return the same atom, and the second
call leaves the server table unchanged — but each call performs one
`InternAtom` server round-trip; no client-side per-name cache exists
(only the fixed well-known `Atoms` set is resolved once, at
construction). -/
theorem get_atom_idempotent_but_uncached (srv : AtomServer) (name : String) :
    (get_atom (get_atom srv name).1.2 name).1.1 = (get_atom srv name).1.1 ∧
    (get_atom (get_atom srv name).1.2 name).1.2 = (get_atom srv name).1.2 ∧
    (get_atom (get_atom srv name).1.2 name).2 = [name] := by
  simp only [get_atom, AtomServer.intern]
  cases hf : srv.table.find? (fun p => p.1 == name) with
  | some p => simp [AtomServer.intern, hf]
  | none =>
      have happ : (srv.table ++ [(name, srv.nextId)]).find? (fun p => p.1 == name)
          = some (name, srv.nextId) := by
        rw [List.find?_append, hf]
        simp
      simp [AtomServer.intern, happ]

theorem startWatchLoop_stops (pre : List WatchStep) (post : List WatchStep)
    (s : WatchStep) (hpre : ∀ x ∈ pre, x.stopReady = false) (hs : s.stopReady = true)
    (rounds : Nat) :
    startWatchLoop (pre ++ s :: post) rounds = some (rounds + handlerRounds pre) := by
  induction pre generalizing rounds with
  | nil => simp [startWatchLoop, hs, handlerRounds]
  | cons x xs ih =>
      have hx : x.stopReady = false := hpre x (by simp)
      have ihx := fun r => ih (fun y hy => hpre y (by simp [hy])) r
      cases he : x.event with
      | none => simp [startWatchLoop, hx, he, ihx, handlerRounds]
      | some b =>
          cases b with
          | false => simp [startWatchLoop, hx, he, ihx, handlerRounds]
          | true =>
              simp [startWatchLoop, hx, he, ihx, handlerRounds]
              omega

/-- **C8.** Once the shutdown message is available, the watch loop
terminates at the very next shutdown-channel check — it consumes none
of the later steps, fires no further handlers, and each check blocks at
most one poll interval (the 500 ms `recv_timeout` bound), so
`start_watch` returns within one poll interval of the token being
signalled (by `stop()` or by drop), regardless of clipboard events.
The loop's result counts exactly the handler rounds of the iterations
before the signal. -/
theorem start_watch_returns_on_signal (pre post : List WatchStep) (s : WatchStep)
    (hpre : ∀ x ∈ pre, x.stopReady = false) (hs : s.stopReady = true) :
    startWatchLoop (pre ++ s :: post) 0 = some (handlerRounds pre) ∧
    pollIntervalMillis = 500 := by
  refine ⟨?_, rfl⟩
  simpa using startWatchLoop_stops pre post s hpre hs 0

/-- Witness for **C8**: two unsignalled iterations (one with a
clipboard change), then the signal; later steps are ignored. -/
theorem start_watch_returns_on_signal_witness :
    startWatchLoop ([⟨false, some true⟩, ⟨false, none⟩] ++ ⟨true, none⟩ ::
        [⟨false, some true⟩]) 0
      = some (handlerRounds [⟨false, some true⟩, ⟨false, none⟩]) ∧
    pollIntervalMillis = 500 :=
  start_watch_returns_on_signal [⟨false, some true⟩, ⟨false, none⟩]
    [⟨false, some true⟩] ⟨true, none⟩ (by decide) (by decide)

end ClipboardRs

